import Mathlib

/-!
Formal model of the tidb-metrics-crawler fetch-batch-process pipeline.

The Go sources are embedded shallowly:
* Go `map[string]string` values are modelled as association lists
  `List (String × String)`; the list order stands for Go's unspecified
  (randomized) map iteration order, and lookup/insert follow map semantics.
* `time.Time` instants and `time.Duration` values are modelled as `Int`
  nanosecond counts (Go stores both as integer nanoseconds).
* `float64` sample values are never interpreted by the code under study
  (they are only carried along and formatted at the sinks), so they are
  modelled as an opaque scalar `Int` payload.
* Fallible Go functions returning `(T, error)` are modelled as
  `Except String T`; error strings mirror the `fmt.Errorf` format strings.
* External collaborators (the Prometheus HTTP API, `time.ParseDuration`,
  the sink's I/O) are modelled as explicit oracle functions passed in.
* Observable effects (FetchRange invocations, sink writes, coordinator
  error logs) are collected in an explicit event trace.
-/

set_option autoImplicit false

namespace Crawler

/-! ## Go map model (association lists) -/

/-- Go map lookup `m[k]`: the first binding of key `k`, if any. -/
def lookupStr {α : Type} : List (String × α) → String → Option α
  | [], _ => none
  | (k', v) :: rest, k => if k' = k then some v else lookupStr rest k

/-- Go map assignment `m[k] = v`: replace the binding of `k` if present,
otherwise add a new binding. -/
def mapInsert {α : Type} : List (String × α) → String → α → List (String × α)
  | [], k, v => [(k, v)]
  | (k', v') :: rest, k, v =>
    if k' = k then (k, v) :: rest else (k', v') :: mapInsert rest k v

/-! ## Prometheus response model (`github.com/prometheus/common/model`) -/

/-- One `model.SamplePair`: a millisecond-resolution timestamp and a
float64 value (carried opaquely). -/
structure SamplePair where
  timestampMs : Int
  value : Int
deriving Repr, DecidableEq

/-- One `model.SampleStream` of a matrix result: the series' full label
set and its ordered samples. -/
structure SampleStream where
  metric : List (String × String)
  values : List SamplePair
deriving Repr, DecidableEq

/-- One `model.Sample` of a vector result: the series' full label set and
its single sample. -/
structure VectorSample where
  metric : List (String × String)
  timestampMs : Int
  value : Int
deriving Repr, DecidableEq

/-- The shapes a `model.Value` can take. Shapes other than vector and
matrix (scalar, string, none) are collapsed into `other`, carrying the
printed type name that Go's `%T` verb would produce. -/
inductive PromValue where
  | vector (samples : List VectorSample)
  | matrix (series : List SampleStream)
  | other (typeName : String)
deriving Repr, DecidableEq

/-- `model.Time.Unix()`: milliseconds divided by 1000, truncated toward
zero exactly as Go's `int64` division is. -/
def modelTimeUnix (ms : Int) : Int := Int.tdiv ms 1000

/-! ## `pkg/common`: ProcessedData -/

/-- `common.ProcessedData`. The `timestamp` field holds the whole-second
instant `time.Unix(sec, 0)` by its second count; `value` is the opaque
float64 payload; `labels` is the extracted label map. -/
structure ProcessedData where
  prometheusInstance : String
  metricName : String
  timestamp : Int
  value : Int
  labels : List (String × String)
deriving Repr, DecidableEq

/-! ## `pkg/config`: MetricConfig -/

/-- `config.MetricConfig`. -/
structure MetricConfig where
  name : String
  query : String
  labelKeys : List String
deriving Repr, DecidableEq

/-! ## Processor: extractLabels and processBatchResult -/

/-- `processor.extractLabels`: for each configured key, in order, look the
key up in the series' full label set and insert it into the result map
only when present. -/
def extractLabels (metric : List (String × String)) (keys : List String) :
    List (String × String) :=
  keys.foldl
    (fun labels key =>
      match lookupStr metric key with
      | some val => mapInsert labels key val
      | none => labels)
    []

/-- `Processor.processBatchResult`: branch on the result shape.  The Go
code type-asserts `model.Vector` first, then `model.Matrix`, and rejects
every other shape with an "unsupported result type" error. -/
def processBatchResult (instanceName metricName : String)
    (labelKeys : List String) (result : PromValue) :
    Except String (List ProcessedData) :=
  match result with
  | PromValue.vector samples =>
    Except.ok (samples.map fun sample =>
      { prometheusInstance := instanceName
        metricName := metricName
        timestamp := modelTimeUnix sample.timestampMs
        value := sample.value
        labels := extractLabels sample.metric labelKeys })
  | PromValue.matrix series =>
    Except.ok (series.flatMap fun s =>
      s.values.map fun sample =>
        { prometheusInstance := instanceName
          metricName := metricName
          timestamp := modelTimeUnix sample.timestampMs
          value := sample.value
          labels := extractLabels s.metric labelKeys })
  | PromValue.other typeName =>
    Except.error ("unsupported result type: " ++ typeName)

/-! ## Batch Scheduler: hourly sub-windows -/

/-- One hour in nanoseconds (`1 * time.Hour`). -/
def hourNs : Int := 3600000000000

/-- The sub-window sequence generated by the loop of
`Processor.processInHourlyBatches`: starting from `currentStart`, each
sub-window ends at `min(currentStart + 1h, globalEnd)` (computed, as in
the source, by clamping `currentStart.Add(1h)` when it is after
`globalEnd`), the next sub-window starts where the previous ended, and
iteration stops once `currentStart` is not before `globalEnd`. -/
def hourlyWindows (currentStart globalEnd : Int) : List (Int × Int) :=
  if h : currentStart < globalEnd then
    let currentEnd :=
      if globalEnd < currentStart + hourNs then globalEnd
      else currentStart + hourNs
    (currentStart, currentEnd) :: hourlyWindows currentEnd globalEnd
  else []
termination_by (globalEnd - currentStart).toNat
decreasing_by
  simp only [hourNs] at *
  split <;> omega

/-! ## Pipeline model: clients, sink oracle, event traces -/

/-- Observable actions of one run: a `client.FetchRange` invocation by the
batch scheduler, a `sink.Write` invocation, and the coordinator's
"Error processing metric ... for instance ..." log line. -/
inductive Event where
  | fetchRange (client query : String) (windowStart windowEnd step : Int)
  | write (metric : String) (records : List ProcessedData)
  | logError (metric client msg : String)
deriving Repr, DecidableEq

/-- A `prometheus.Client` as the scheduler sees it: a name and the
outcome of each `FetchRange(query, start, end, step)` call. -/
structure ClientModel where
  name : String
  fetch : String → Int → Int → Int → Except String PromValue

/-- The sink's response to each `Write(metricName, data)` call. -/
def SinkOracle : Type := String → List ProcessedData → Except String Unit

/-- The body of `Processor.processInHourlyBatches` applied to an explicit
list of sub-windows, threading the batch number used in error messages:
fetch the sub-window, normalize it, write non-empty batches to the sink,
and stop with an error as soon as any step of a batch fails. -/
def processWindows (sinkW : SinkOracle) (client : ClientModel)
    (metric : MetricConfig) (step : Int) :
    List (Int × Int) → Nat → List Event × Except String Unit
  | [], _ => ([], Except.ok ())
  | (ws, we) :: rest, batchNumber =>
    let fetchEv := Event.fetchRange client.name metric.query ws we step
    match client.fetch metric.query ws we step with
    | Except.error e =>
      ([fetchEv],
       Except.error ("failed to fetch batch " ++ toString batchNumber ++ ": " ++ e))
    | Except.ok result =>
      match processBatchResult client.name metric.name metric.labelKeys result with
      | Except.error e =>
        ([fetchEv],
         Except.error ("failed to process batch " ++ toString batchNumber ++
           " results: " ++ e))
      | Except.ok processedData =>
        if processedData.length > 0 then
          match sinkW metric.name processedData with
          | Except.error e =>
            ([fetchEv, Event.write metric.name processedData],
             Except.error ("failed to write batch " ++ toString batchNumber ++
               " to sink: " ++ e))
          | Except.ok _ =>
            let next := processWindows sinkW client metric step rest (batchNumber + 1)
            (fetchEv :: Event.write metric.name processedData :: next.1, next.2)
        else
          let next := processWindows sinkW client metric step rest (batchNumber + 1)
          (fetchEv :: next.1, next.2)

/-- `Processor.processInHourlyBatches` as written in the source: the loop
advances `currentStart` by at most one hour per iteration (clamping at
`globalEnd`), numbering batches from 1. -/
def batchLoop (sinkW : SinkOracle) (client : ClientModel)
    (metric : MetricConfig) (globalEnd step : Int) :
    Int → Nat → List Event × Except String Unit
  | currentStart, batchNumber =>
    if h : currentStart < globalEnd then
      let currentEnd :=
        if globalEnd < currentStart + hourNs then globalEnd
        else currentStart + hourNs
      let fetchEv := Event.fetchRange client.name metric.query currentStart currentEnd step
      match client.fetch metric.query currentStart currentEnd step with
      | Except.error e =>
        ([fetchEv],
         Except.error ("failed to fetch batch " ++ toString batchNumber ++ ": " ++ e))
      | Except.ok result =>
        match processBatchResult client.name metric.name metric.labelKeys result with
        | Except.error e =>
          ([fetchEv],
           Except.error ("failed to process batch " ++ toString batchNumber ++
             " results: " ++ e))
        | Except.ok processedData =>
          if processedData.length > 0 then
            match sinkW metric.name processedData with
            | Except.error e =>
              ([fetchEv, Event.write metric.name processedData],
               Except.error ("failed to write batch " ++ toString batchNumber ++
                 " to sink: " ++ e))
            | Except.ok _ =>
              let next := batchLoop sinkW client metric globalEnd step currentEnd
                (batchNumber + 1)
              (fetchEv :: Event.write metric.name processedData :: next.1, next.2)
          else
            let next := batchLoop sinkW client metric globalEnd step currentEnd
              (batchNumber + 1)
            (fetchEv :: next.1, next.2)
    else ([], Except.ok ())
termination_by currentStart _ => (globalEnd - currentStart).toNat
decreasing_by
  all_goals simp only [hourNs] at *
  all_goals split <;> omega

/-- `Processor.processInHourlyBatches(client, metric, globalStart,
globalEnd, step)`: run the hourly batch loop from the global start with
batch number 1. -/
def processInHourlyBatches (sinkW : SinkOracle) (client : ClientModel)
    (metric : MetricConfig) (globalStart globalEnd step : Int) :
    List Event × Except String Unit :=
  batchLoop sinkW client metric globalEnd step globalStart 1

/-! ## Pipeline Coordinator (`Processor.ProcessMetrics`) -/

/-- The coordinator's handling of one pair's batch-loop outcome: on an
error, append the "Error processing metric %s for instance %s" log line
and continue. -/
def pairEvents (metric : MetricConfig) (client : ClientModel) :
    List Event × Except String Unit → List Event
  | (evs, Except.ok _) => evs
  | (evs, Except.error msg) => evs ++ [Event.logError metric.name client.name msg]

/-- One (metric, client) pair as the coordinator's inner loop body sees
it. -/
def processPair (sinkW : SinkOracle) (client : ClientModel)
    (metric : MetricConfig) (globalStart globalEnd step : Int) : List Event :=
  pairEvents metric client
    (processInHourlyBatches sinkW client metric globalStart globalEnd step)

/-- The coordinator's inner loop over the configured clients. -/
def processClients (sinkW : SinkOracle) (metric : MetricConfig)
    (globalStart globalEnd step : Int) : List ClientModel → List Event
  | [] => []
  | client :: rest =>
    processPair sinkW client metric globalStart globalEnd step ++
      processClients sinkW metric globalStart globalEnd step rest

/-- The coordinator's outer loop over the configured metrics. -/
def processAllMetrics (sinkW : SinkOracle) (clients : List ClientModel)
    (globalStart globalEnd step : Int) : List MetricConfig → List Event
  | [] => []
  | metric :: rest =>
    processClients sinkW metric globalStart globalEnd step clients ++
      processAllMetrics sinkW clients globalStart globalEnd step rest

/-- `Processor.ProcessMetrics`: parse the step (via the supplied model of
Go's `time.ParseDuration`), reject runs whose start is after their end,
then run every metric against every client, always returning nil. -/
def ProcessMetrics (parseDuration : String → Except String Int)
    (sinkW : SinkOracle) (clients : List ClientModel)
    (metrics : List MetricConfig) (start stop : Int) (stepStr : String) :
    List Event × Except String Unit :=
  match parseDuration stepStr with
  | Except.error e => ([], Except.error ("invalid step duration: " ++ e))
  | Except.ok step =>
    if stop < start then ([], Except.error "start time must be before end time")
    else (processAllMetrics sinkW clients start stop step metrics, Except.ok ())

/-! ## Remote Query Client retry loop (`promClient.FetchRange`) -/

/-- Observable outcome of one `FetchRange` call: the returned value or
error, the backoff sleeps performed (nanoseconds, in order), and the
number of query attempts made. -/
structure FetchOutcome where
  result : Except String PromValue
  sleeps : List Int
  attempts : Nat
deriving Repr

/-- The retry loop of `promClient.FetchRange`.  `respond n` is the
outcome of the n-th `api.QueryRange` call (the remote side is an
oracle).  The fuel argument counts the loop iterations still permitted,
`maxRetries - attempt + 1`; the fuel-zero case is the unreachable
`return nil, errors.New("maximum retry attempts exceeded")` after the
loop.  On failure before the last attempt the loop sleeps `retryDelay`
and doubles it. -/
def fetchRangeGo (respond : Nat → Except String PromValue) (maxRetries : Nat) :
    Nat → Nat → Int → FetchOutcome
  | 0, _, _ =>
    { result := Except.error "maximum retry attempts exceeded"
      sleeps := [], attempts := 0 }
  | fuel + 1, attempt, retryDelay =>
    match respond attempt with
    | Except.ok result => { result := Except.ok result, sleeps := [], attempts := 1 }
    | Except.error e =>
      if attempt = maxRetries then
        { result := Except.error ("failed after " ++ toString maxRetries ++
            " retries: " ++ e)
          sleeps := [], attempts := 1 }
      else
        let next := fetchRangeGo respond maxRetries fuel (attempt + 1) (retryDelay * 2)
        { result := next.result, sleeps := retryDelay :: next.sleeps,
          attempts := next.attempts + 1 }

/-- `promClient.FetchRange` with the source's constants: `maxRetries = 5`
and an initial `retryDelay` of two seconds, starting at attempt 1.  The
client's name is the receiver's `c.name`; note the source uses it only in
log lines, never in the returned error. -/
def fetchRange (name : String) (respond : Nat → Except String PromValue) :
    FetchOutcome :=
  fetchRangeGo respond 5 5 1 2000000000

/-! ## CSV sink (`pkg/sink/csv_sink.go`) -/

/-- `CSVSink.createHeaderRow`: the four fixed columns followed by one
`label_<key>` column per label key of the sample record, in the order Go
map iteration yields them (which is unspecified). -/
def createHeaderRow (sample : ProcessedData) : List String :=
  ["prometheus_instance", "metric_name", "timestamp", "value"] ++
    sample.labels.map (fun kv => "label_" ++ kv.1)

/-- Insert a string into an ascending list (helper for `sort.Strings`). -/
def insertAsc (x : String) : List String → List String
  | [] => [x]
  | y :: rest => if x ≤ y then x :: y :: rest else y :: insertAsc x rest

/-- Ascending string sort, modelling Go's `sort.Strings`. -/
def sortStrings : List String → List String
  | [] => []
  | x :: rest => insertAsc x (sortStrings rest)

/-- `sink.getSortedLabelKeys`: the label keys in sorted order. -/
def getSortedLabelKeys (labels : List (String × String)) : List String :=
  sortStrings (labels.map Prod.fst)

/-- `CSVSink.createDataRow`: the four fixed fields followed by the label
values in sorted-key order.  The RFC3339 timestamp and `%f` value
renderings are abstracted to `toString`. -/
def createDataRow (data : ProcessedData) : List String :=
  [data.prometheusInstance, data.metricName, toString data.timestamp,
    toString data.value] ++
    (getSortedLabelKeys data.labels).map
      (fun key => (lookupStr data.labels key).getD "")

/-- The sink's file-backed state: for each metric name that has a writer,
the header row its file was created with, plus every data row written so
far (tagged with its metric). -/
structure CSVState where
  writers : List (String × List String)
  rows : List (String × List String)
deriving Repr, DecidableEq

/-- A `CSVSink` with no files created yet. -/
def csvInit : CSVState := { writers := [], rows := [] }

/-- `CSVSink.Write`: an empty batch returns immediately; otherwise the
writer (file plus header from the batch's first record) is created
lazily on first use, and one data row is appended per record. -/
def csvWrite (st : CSVState) (metricName : String)
    (data : List ProcessedData) : CSVState :=
  match data with
  | [] => st
  | first :: _ =>
    let st1 :=
      match lookupStr st.writers metricName with
      | some _ => st
      | none =>
        { st with writers := mapInsert st.writers metricName (createHeaderRow first) }
    { st1 with
      rows := st1.rows ++ data.map (fun d => (metricName, createDataRow d)) }

/-- Replay the sink writes of an event trace against a `CSVSink`. -/
def runSink (st : CSVState) : List Event → CSVState
  | [] => st
  | Event.write metricName records :: rest => runSink (csvWrite st metricName records) rest
  | _ :: rest => runSink st rest

/-! ## Trace helpers and concrete fixtures -/

/-- Whether an event is a `FetchRange` invocation. -/
def isFetch : Event → Bool
  | Event.fetchRange _ _ _ _ _ => true
  | _ => false

/-- Substring occurrence on character lists. -/
def containsSeq : List Char → List Char → Bool
  | hay, needle =>
    if needle.isPrefixOf hay then true
    else
      match hay with
      | [] => false
      | _ :: rest => containsSeq rest needle

/-- Whether `sub` occurs as a substring of `s`. -/
def strContains (s sub : String) : Bool := containsSeq s.toList sub.toList

/-- A model of Go's `time.ParseDuration` restricted to the inputs the
fixtures use: "5m" parses to five minutes of nanoseconds. -/
def pdStep : String → Except String Int :=
  fun s => if s = "5m" then Except.ok 300000000000
    else Except.error ("time: invalid duration " ++ s)

/-- A sink oracle that accepts every write. -/
def sinkOk : SinkOracle := fun _ _ => Except.ok ()

/-- A client whose every fetch fails. -/
def clientBoom : ClientModel :=
  { name := "promA", fetch := fun _ _ _ _ => Except.error "boom" }

/-- A client that returns a one-sample vector for every fetch. -/
def clientGood : ClientModel :=
  { name := "promB"
    fetch := fun _ _ _ _ =>
      Except.ok (PromValue.vector [{ metric := [("instance", "a")], timestampMs := 1500, value := 7 }]) }

/-- A client that succeeds on the first hourly sub-window (start 0) and
fails on every later one. -/
def clientSecondBatchBoom : ClientModel :=
  { name := "promC"
    fetch := fun _ ws _ _ =>
      if ws = 0 then
        Except.ok (PromValue.vector [{ metric := [("instance", "a")], timestampMs := 1500, value := 7 }])
      else Except.error "boom" }

/-- A metric fixture. -/
def metricCpu : MetricConfig := { name := "m1", query := "q1", labelKeys := ["instance"] }

/-- The record `clientGood`'s single sample normalizes to under
`metricCpu`: second-truncated timestamp 1 and the extracted label. -/
def recGood : ProcessedData :=
  { prometheusInstance := "promB", metricName := "m1", timestamp := 1,
    value := 7, labels := [("instance", "a")] }

/-- The vector `clientSecondBatchBoom` returns on its first sub-window. -/
def vecC6 : PromValue :=
  PromValue.vector
    [{ metric := [("instance", "a")], timestampMs := 1500, value := 7 }]

/-- The record that vector normalizes to under `metricCpu`. -/
def recC6 : ProcessedData :=
  { prometheusInstance := "promC", metricName := "m1", timestamp := 1,
    value := 7, labels := [("instance", "a")] }

/-! # Theorems -/

theorem hourlyWindows_unfold (s e : Int) :
    hourlyWindows s e =
      if s < e then
        (s, if e < s + hourNs then e else s + hourNs) ::
          hourlyWindows (if e < s + hourNs then e else s + hourNs) e
      else [] := by
  rw [hourlyWindows.eq_def]
  by_cases h : s < e <;> simp [h]

theorem hourlyWindows_nil (s e : Int) (h : e ≤ s) : hourlyWindows s e = [] := by
  rw [hourlyWindows_unfold, if_neg (by omega)]

/-- The batch loop visits exactly the sub-windows of `hourlyWindows`. -/
theorem batchLoop_eq_processWindows (sinkW : SinkOracle) (client : ClientModel)
    (metric : MetricConfig) (globalEnd step : Int) :
    ∀ n currentStart batchNumber, (globalEnd - currentStart).toNat = n →
      batchLoop sinkW client metric globalEnd step currentStart batchNumber =
        processWindows sinkW client metric step
          (hourlyWindows currentStart globalEnd) batchNumber := by
  intro n
  induction n using Nat.strong_induction_on with
  | _ n ih =>
    intro currentStart batchNumber hn
    rw [batchLoop.eq_def, hourlyWindows_unfold]
    by_cases h : currentStart < globalEnd
    · simp only [h, dif_pos, if_pos]
      have hrec :
          batchLoop sinkW client metric globalEnd step
              (if globalEnd < currentStart + hourNs then globalEnd
               else currentStart + hourNs) (batchNumber + 1) =
            processWindows sinkW client metric step
              (hourlyWindows
                (if globalEnd < currentStart + hourNs then globalEnd
                 else currentStart + hourNs) globalEnd) (batchNumber + 1) := by
        apply ih ((globalEnd -
          (if globalEnd < currentStart + hourNs then globalEnd
           else currentStart + hourNs)).toNat)
        · subst hn
          simp only [hourNs] at *
          split <;> omega
        · rfl
      simp only [processWindows]
      rw [hrec]
    · simp [h, processWindows]

theorem processInHourlyBatches_eq (sinkW : SinkOracle) (client : ClientModel)
    (metric : MetricConfig) (globalStart globalEnd step : Int) :
    processInHourlyBatches sinkW client metric globalStart globalEnd step =
      processWindows sinkW client metric step
        (hourlyWindows globalStart globalEnd) 1 :=
  batchLoop_eq_processWindows sinkW client metric globalEnd step
    (globalEnd - globalStart).toNat globalStart 1 rfl

/-! ### Result Normalizer: shapes (C7) -/

/-- C7: the normalizer emits, for a matrix, exactly one record per
(series, sample) pair carrying that sample's own timestamp; for a
vector, exactly one record per series carrying that series' single
sample's timestamp; and for any other shape an "unsupported result
type" error and no records. -/
theorem C7_normalizer_shapes (inst mn : String) (keys : List String) :
    (∀ series : List SampleStream,
      Except.map (fun recs => recs.map (fun r => r.timestamp))
          (processBatchResult inst mn keys (PromValue.matrix series)) =
        Except.ok (series.flatMap fun s =>
          s.values.map fun sample => modelTimeUnix sample.timestampMs)) ∧
    (∀ samples : List VectorSample,
      Except.map (fun recs => recs.map (fun r => r.timestamp))
          (processBatchResult inst mn keys (PromValue.vector samples)) =
        Except.ok (samples.map fun sample => modelTimeUnix sample.timestampMs)) ∧
    (∀ typeName : String,
      processBatchResult inst mn keys (PromValue.other typeName) =
        Except.error ("unsupported result type: " ++ typeName)) := by
  refine ⟨fun series => ?_, fun samples => ?_, fun typeName => rfl⟩
  · simp only [processBatchResult, Except.map, List.map_flatMap, List.map_map]
    rfl
  · simp only [processBatchResult, Except.map, List.map_map]
    rfl

/-! ### Label extraction (C8) -/

theorem mem_mapInsert_elim {α : Type} (k k' : String) (v v' : α) :
    ∀ m : List (String × α),
      (k', v') ∈ mapInsert m k v → (k' = k ∧ v' = v) ∨ (k', v') ∈ m := by
  intro m
  induction m with
  | nil =>
    intro h
    simp only [mapInsert, List.mem_singleton] at h
    exact Or.inl ⟨congrArg Prod.fst h, congrArg Prod.snd h⟩
  | cons hd tl ih =>
    obtain ⟨a, b⟩ := hd
    intro h
    simp only [mapInsert] at h
    by_cases hak : a = k
    · rw [if_pos hak] at h
      rcases List.mem_cons.mp h with h | h
      · exact Or.inl ⟨congrArg Prod.fst h, congrArg Prod.snd h⟩
      · exact Or.inr (List.mem_cons_of_mem _ h)
    · rw [if_neg hak] at h
      rcases List.mem_cons.mp h with h | h
      · exact Or.inr (List.mem_cons.mpr (Or.inl h))
      · rcases ih h with h' | h'
        · exact Or.inl h'
        · exact Or.inr (List.mem_cons.mpr (Or.inr h'))

theorem key_mem_mapInsert {α : Type} (k k' : String) (v : α) :
    ∀ m : List (String × α),
      (∃ v', (k', v') ∈ mapInsert m k v) ↔ k' = k ∨ ∃ v', (k', v') ∈ m := by
  intro m
  induction m with
  | nil =>
    constructor
    · rintro ⟨v', hv⟩
      simp only [mapInsert, List.mem_singleton] at hv
      exact Or.inl (congrArg Prod.fst hv)
    · rintro (rfl | ⟨v', hv⟩)
      · exact ⟨v, by simp [mapInsert]⟩
      · simp at hv
  | cons hd tl ih =>
    obtain ⟨a, b⟩ := hd
    simp only [mapInsert]
    by_cases hak : a = k
    · rw [if_pos hak]
      subst hak
      constructor
      · rintro ⟨v', hv⟩
        rcases List.mem_cons.mp hv with h | h
        · exact Or.inl (congrArg Prod.fst h)
        · exact Or.inr ⟨v', List.mem_cons.mpr (Or.inr h)⟩
      · rintro (rfl | ⟨v', hv⟩)
        · exact ⟨v, List.mem_cons.mpr (Or.inl rfl)⟩
        · rcases List.mem_cons.mp hv with h | h
          · refine ⟨v, List.mem_cons.mpr (Or.inl ?_)⟩
            have hk : k' = a := congrArg Prod.fst h
            rw [hk]
          · exact ⟨v', List.mem_cons.mpr (Or.inr h)⟩
    · rw [if_neg hak]
      constructor
      · rintro ⟨v', hv⟩
        rcases List.mem_cons.mp hv with h | h
        · exact Or.inr ⟨v', List.mem_cons.mpr (Or.inl h)⟩
        · rcases ih.mp ⟨v', h⟩ with h' | ⟨v'', h''⟩
          · exact Or.inl h'
          · exact Or.inr ⟨v'', List.mem_cons.mpr (Or.inr h'')⟩
      · rintro (h | ⟨v', hv⟩)
        · obtain ⟨v'', h''⟩ := ih.mpr (Or.inl h)
          exact ⟨v'', List.mem_cons.mpr (Or.inr h'')⟩
        · rcases List.mem_cons.mp hv with h | h
          · exact ⟨v', List.mem_cons.mpr (Or.inl h)⟩
          · obtain ⟨v'', h''⟩ := ih.mpr (Or.inr ⟨v', h⟩)
            exact ⟨v'', List.mem_cons.mpr (Or.inr h'')⟩

/-- Key membership in the label-extraction fold, for an arbitrary
accumulator. -/
theorem extractLabels_go_key (metric : List (String × String)) :
    ∀ (keys : List String) (acc : List (String × String)) (k : String),
      (∃ v, (k, v) ∈ keys.foldl
          (fun labels key =>
            match lookupStr metric key with
            | some val => mapInsert labels key val
            | none => labels) acc) ↔
        ((∃ v, (k, v) ∈ acc) ∨ (k ∈ keys ∧ (lookupStr metric k).isSome)) := by
  intro keys
  induction keys with
  | nil => intro acc k; simp
  | cons key rest ih =>
    intro acc k
    simp only [List.foldl_cons, List.mem_cons]
    cases hlk : lookupStr metric key with
    | none =>
      rw [ih]
      constructor
      · rintro (h | h)
        · exact Or.inl h
        · exact Or.inr ⟨Or.inr h.1, h.2⟩
      · rintro (h | ⟨hk, hsome⟩)
        · exact Or.inl h
        · rcases hk with rfl | hk
          · rw [hlk] at hsome; simp at hsome
          · exact Or.inr ⟨hk, hsome⟩
    | some val =>
      rw [ih, key_mem_mapInsert]
      constructor
      · rintro ((rfl | h) | h)
        · exact Or.inr ⟨Or.inl rfl, by rw [hlk]; rfl⟩
        · exact Or.inl h
        · exact Or.inr ⟨Or.inr h.1, h.2⟩
      · rintro (h | ⟨rfl | hk, hsome⟩)
        · exact Or.inl (Or.inr h)
        · exact Or.inl (Or.inl rfl)
        · exact Or.inr ⟨hk, hsome⟩

/-- Every binding produced by the label-extraction fold agrees with the
series' full label set, for any accumulator that does. -/
theorem extractLabels_go_sound (metric : List (String × String)) :
    ∀ (keys : List String) (acc : List (String × String)),
      (∀ kv ∈ acc, lookupStr metric kv.1 = some kv.2) →
      ∀ kv ∈ keys.foldl
          (fun labels key =>
            match lookupStr metric key with
            | some val => mapInsert labels key val
            | none => labels) acc,
        lookupStr metric kv.1 = some kv.2 := by
  intro keys
  induction keys with
  | nil => intro acc hacc kv h; exact hacc kv h
  | cons key rest ih =>
    intro acc hacc kv h
    simp only [List.foldl_cons] at h
    cases hlk : lookupStr metric key with
    | none => rw [hlk] at h; exact ih acc hacc kv h
    | some val =>
      rw [hlk] at h
      refine ih (mapInsert acc key val) ?_ kv h
      intro kv' hkv'
      obtain ⟨kv1, kv2⟩ := kv'
      rcases mem_mapInsert_elim key kv1 val kv2 acc hkv' with ⟨rfl, rfl⟩ | hmem
      · exact hlk
      · exact hacc _ hmem

/-- The full label sets of the series of a raw result. -/
def seriesLabelSets : PromValue → List (List (String × String))
  | PromValue.vector samples => samples.map (fun s => s.metric)
  | PromValue.matrix series => series.map (fun s => s.metric)
  | PromValue.other _ => []

/-- C8: a key appears in an extracted label mapping iff it is configured
and present on the series, its value is the series' own value, and every
record the normalizer emits carries the extraction of its own series'
full label set. -/
theorem C8_labels_configured_and_present (metric : List (String × String))
    (keys : List String) (k : String) :
    ((∃ v, (k, v) ∈ extractLabels metric keys) ↔
      (k ∈ keys ∧ (lookupStr metric k).isSome)) ∧
    (∀ v, (k, v) ∈ extractLabels metric keys → lookupStr metric k = some v) ∧
    (∀ inst mn result recs r,
      processBatchResult inst mn keys result = Except.ok recs → r ∈ recs →
        ∃ fullLabels ∈ seriesLabelSets result,
          r.labels = extractLabels fullLabels keys) := by
  refine ⟨?_, ?_, ?_⟩
  · rw [extractLabels, extractLabels_go_key]
    simp
  · intro v hv
    exact extractLabels_go_sound metric keys [] (by simp) (k, v) hv
  · intro inst mn result recs r hok hr
    cases result with
    | vector samples =>
      simp only [processBatchResult, Except.ok.injEq] at hok
      subst hok
      obtain ⟨sample, hs, rfl⟩ := List.mem_map.mp hr
      exact ⟨sample.metric, List.mem_map.mpr ⟨sample, hs, rfl⟩, rfl⟩
    | matrix series =>
      simp only [processBatchResult, Except.ok.injEq] at hok
      subst hok
      obtain ⟨s, hs, hr'⟩ := List.mem_flatMap.mp hr
      obtain ⟨sample, _, rfl⟩ := List.mem_map.mp hr'
      exact ⟨s.metric, List.mem_map.mpr ⟨s, hs, rfl⟩, rfl⟩
    | other typeName => simp [processBatchResult] at hok

/-- Witness for C8 at a concrete series and configuration. -/
theorem C8_labels_configured_and_present_witness :
    (("instance" ∈ ["instance", "mode"] ∧
        (lookupStr [("instance", "a"), ("job", "b")] "instance").isSome) ∧
      ∃ v, ("instance", v) ∈
        extractLabels [("instance", "a"), ("job", "b")] ["instance", "mode"]) ∧
    ¬ ∃ v, ("job", v) ∈
        extractLabels [("instance", "a"), ("job", "b")] ["instance", "mode"] := by
  constructor
  · refine ⟨⟨by decide, by decide⟩, ?_⟩
    exact (C8_labels_configured_and_present
      [("instance", "a"), ("job", "b")] ["instance", "mode"] "instance").1.mpr
      ⟨by decide, by decide⟩
  · intro hex
    have := (C8_labels_configured_and_present
      [("instance", "a"), ("job", "b")] ["instance", "mode"] "job").1.mp hex
    revert this
    decide

/-! ### Remote Query Client retries (C4, C5) -/

/-- C4: FetchRange makes at most 5 attempts; if attempt k succeeds it
returns that result with no error after exactly k attempts, and the
sleeps performed before retries are 2s, 4s, 8s, 16s in order (the first
k - 1 of them). -/
theorem C4_fetchRange_success (name : String)
    (respond : Nat → Except String PromValue) (v : PromValue) (k : Nat)
    (hk1 : 1 ≤ k) (hk5 : k ≤ 5)
    (hfail : ∀ i, 1 ≤ i → i < k → ∃ e, respond i = Except.error e)
    (hsucc : respond k = Except.ok v) :
    fetchRange name respond =
      { result := Except.ok v
        sleeps := (List.range (k - 1)).map (fun n => 2000000000 * 2 ^ n)
        attempts := k } := by
  interval_cases k
  · simp [fetchRange, fetchRangeGo, hsucc]
  · obtain ⟨e1, h1⟩ := hfail 1 (by norm_num) (by norm_num)
    simp [fetchRange, fetchRangeGo, h1, hsucc, List.range_succ]
  · obtain ⟨e1, h1⟩ := hfail 1 (by norm_num) (by norm_num)
    obtain ⟨e2, h2⟩ := hfail 2 (by norm_num) (by norm_num)
    simp [fetchRange, fetchRangeGo, h1, h2, hsucc, List.range_succ]
  · obtain ⟨e1, h1⟩ := hfail 1 (by norm_num) (by norm_num)
    obtain ⟨e2, h2⟩ := hfail 2 (by norm_num) (by norm_num)
    obtain ⟨e3, h3⟩ := hfail 3 (by norm_num) (by norm_num)
    simp [fetchRange, fetchRangeGo, h1, h2, h3, hsucc, List.range_succ]
  · obtain ⟨e1, h1⟩ := hfail 1 (by norm_num) (by norm_num)
    obtain ⟨e2, h2⟩ := hfail 2 (by norm_num) (by norm_num)
    obtain ⟨e3, h3⟩ := hfail 3 (by norm_num) (by norm_num)
    obtain ⟨e4, h4⟩ := hfail 4 (by norm_num) (by norm_num)
    simp [fetchRange, fetchRangeGo, h1, h2, h3, h4, hsucc, List.range_succ]

/-- Witness for C4: a client that fails four times and succeeds on the
fifth attempt returns the successful result with no error, having slept
2 + 4 + 8 + 16 = 30 seconds in total. -/
theorem C4_fetchRange_success_witness :
    ((1 : Nat) ≤ 5 ∧ (5 : Nat) ≤ 5) ∧
    (fetchRange "promA"
        (fun i => if i = 5 then Except.ok (PromValue.other "scalar")
          else Except.error "boom")).result =
      Except.ok (PromValue.other "scalar") ∧
    (fetchRange "promA"
        (fun i => if i = 5 then Except.ok (PromValue.other "scalar")
          else Except.error "boom")).sleeps.sum = 30000000000 ∧
    (fetchRange "promA"
        (fun i => if i = 5 then Except.ok (PromValue.other "scalar")
          else Except.error "boom")).attempts = 5 := by
  have h := C4_fetchRange_success "promA"
    (fun i => if i = 5 then Except.ok (PromValue.other "scalar")
      else Except.error "boom")
    (PromValue.other "scalar") 5 (by norm_num) (by norm_num)
    (by
      intro i hi1 hi5
      refine ⟨"boom", ?_⟩
      have : i ≠ 5 := by omega
      simp [this])
    (by simp)
  rw [h]
  refine ⟨⟨by norm_num, by norm_num⟩, rfl, ?_, rfl⟩
  simp [List.range_succ]

/-- C5: when every one of the 5 attempts fails, FetchRange returns a
terminal error naming the retry count and the underlying cause, performs
exactly the 4 backoff sleeps (none after the final attempt), and makes
exactly 5 attempts. -/
theorem C5_fetchRange_exhaustion (name : String)
    (respond : Nat → Except String PromValue) (es : Nat → String)
    (hfail : ∀ i, 1 ≤ i → i ≤ 5 → respond i = Except.error (es i)) :
    fetchRange name respond =
      { result := Except.error ("failed after 5 retries: " ++ es 5)
        sleeps := [2000000000, 4000000000, 8000000000, 16000000000]
        attempts := 5 } := by
  have h1 := hfail 1 (by norm_num) (by norm_num)
  have h2 := hfail 2 (by norm_num) (by norm_num)
  have h3 := hfail 3 (by norm_num) (by norm_num)
  have h4 := hfail 4 (by norm_num) (by norm_num)
  have h5 := hfail 5 (by norm_num) (by norm_num)
  simp [fetchRange, fetchRangeGo, h1, h2, h3, h4, h5]
  rfl

/-- Witness for C5 at a concrete always-failing client. -/
theorem C5_fetchRange_exhaustion_witness :
    (∀ i, 1 ≤ i → i ≤ 5 →
      (fun _ : Nat => (Except.error "boom" : Except String PromValue)) i =
        Except.error ((fun _ : Nat => "boom") i)) ∧
    fetchRange "promA" (fun _ => Except.error "boom") =
      { result := Except.error "failed after 5 retries: boom"
        sleeps := [2000000000, 4000000000, 8000000000, 16000000000]
        attempts := 5 } := by
  refine ⟨fun i _ _ => rfl, ?_⟩
  exact C5_fetchRange_exhaustion "promA" (fun _ => Except.error "boom")
    (fun _ => "boom") (fun i _ _ => rfl)

/-- Counterexample to C5 as stated: the terminal error does not identify
the source.  Two clients with different names produce the identical
terminal error, and the error string does not contain the source name. -/
theorem C5_counterexample_no_source_in_error :
    (fetchRange "promA" (fun _ => Except.error "boom")).result =
      Except.error "failed after 5 retries: boom" ∧
    strContains "failed after 5 retries: boom" "promA" = false ∧
    (fetchRange "promA" (fun _ => Except.error "boom")).result =
      (fetchRange "promB" (fun _ => Except.error "boom")).result := by
  refine ⟨rfl, by decide, rfl⟩

/-! ### Batch Scheduler sub-window structure (C3) -/

theorem ceil_div_step (d : Nat) (hbig : d > 3600000000000) :
    (d - 3600000000000 + 3600000000000 - 1) / 3600000000000 + 1 =
      (d + 3600000000000 - 1) / 3600000000000 := by omega

theorem ceil_div_one (d : Nat) (h1 : 1 ≤ d) (h2 : d ≤ 3600000000000) :
    (d + 3600000000000 - 1) / 3600000000000 = 1 := by omega

/-- Structural invariants of the hourly sub-window sequence, proved
simultaneously by strong induction on the window span. -/
theorem hourlyWindows_spec :
    ∀ (n : Nat) (s e : Int), (e - s).toNat = n →
      (∀ w ∈ hourlyWindows s e,
        s ≤ w.1 ∧ w.1 < w.2 ∧ w.2 ≤ e ∧ w.2 = min (w.1 + hourNs) e) ∧
      List.Chain' (fun a b : Int × Int => a.2 = b.1) (hourlyWindows s e) ∧
      List.Pairwise (fun a b : Int × Int => a.2 ≤ b.1) (hourlyWindows s e) ∧
      (s < e → (hourlyWindows s e).head? = some (s, min (s + hourNs) e)) ∧
      (s < e → ((hourlyWindows s e).getLast?).map Prod.snd = some e) ∧
      (s < e → (hourlyWindows s e).length =
        ((e - s).toNat + hourNs.toNat - 1) / hourNs.toNat) ∧
      (∀ t, s ≤ t → t < e → ∃ w ∈ hourlyWindows s e, w.1 ≤ t ∧ t < w.2) ∧
      (s < e → ¬ hourNs ∣ (e - s) →
        ∃ w, (hourlyWindows s e).getLast? = some w ∧ w.2 - w.1 < hourNs) := by
  intro n
  induction n using Nat.strong_induction_on with
  | _ n ih =>
    intro s e hn
    by_cases h : s < e
    case neg =>
      rw [hourlyWindows_nil s e (by omega)]
      exact ⟨by simp, by simp, by simp,
        fun hse => absurd hse h, fun hse => absurd hse h, fun hse => absurd hse h,
        fun t ht1 ht2 => absurd (ht1.trans_lt ht2) h,
        fun hse => absurd hse h⟩
    case pos =>
      obtain ⟨c, hc⟩ : ∃ c, c = if e < s + hourNs then e else s + hourNs :=
        ⟨_, rfl⟩
      have hcs : s < c := by
        rw [hc]; split
        · exact h
        · simp only [hourNs]; omega
      have hce : c ≤ e := by rw [hc]; split <;> omega
      have hw : hourlyWindows s e = (s, c) :: hourlyWindows c e := by
        rw [hourlyWindows_unfold, if_pos h, ← hc]
      have hc_min : c = min (s + hourNs) e := by
        rw [hc, min_def]; split <;> split <;> omega
      have hmeas : (e - c).toNat < n := by subst hn; omega
      obtain ⟨ihmem, ihchain, ihpair, ihhead, ihlast, ihlen, ihcover, ihshort⟩ :=
        ih (e - c).toNat hmeas c e rfl
      refine ⟨?_, ?_, ?_, ?_, ?_, ?_, ?_, ?_⟩
      · -- every window is inside [s, e), nonempty, ending at min(start+1h, e)
        intro w hw'
        rw [hw] at hw'
        rcases List.mem_cons.mp hw' with rfl | hw'
        · exact ⟨le_refl s, hcs, hce, hc_min⟩
        · obtain ⟨h1, h2, h3, h4⟩ := ihmem w hw'
          exact ⟨le_trans (le_of_lt hcs) h1, h2, h3, h4⟩
      · -- adjacency: each sub-window ends where the next starts
        rw [hw]
        refine List.chain'_cons'.mpr ⟨?_, ihchain⟩
        intro b hb
        by_cases hce' : c < e
        · rw [ihhead hce'] at hb
          simp only [Option.mem_def, Option.some.injEq] at hb
          rw [← hb]
        · rw [hourlyWindows_nil c e (by omega)] at hb
          simp at hb
      · -- separation: every later sub-window starts at or after this end
        rw [hw]
        refine List.pairwise_cons.mpr ⟨?_, ihpair⟩
        intro w' hw'
        exact (ihmem w' hw').1
      · -- the first sub-window starts at the global start
        intro _
        rw [hw, List.head?_cons, hc_min]
      · -- the last sub-window ends at the global end
        intro _
        rw [hw]
        cases htail : hourlyWindows c e with
        | nil =>
          have hnc : ¬ c < e := by
            intro hlt
            rw [hourlyWindows_unfold, if_pos hlt] at htail
            cases htail
          have hceq : c = e := by omega
          simp [List.getLast?, hceq]
        | cons w' tl =>
          have hclt : c < e := by
            by_contra hnc
            rw [hourlyWindows_nil c e (by omega)] at htail
            cases htail
          rw [List.getLast?_cons_cons, ← htail]
          exact ihlast hclt
      · -- the number of sub-windows is the ceiling of span / 1h
        intro _
        rw [hw, List.length_cons]
        by_cases hce' : c < e
        · rw [ihlen hce']
          have hcsh : c = s + hourNs := by
            rw [hc]; split
            · omega
            · rfl
          have hbig : (e - s).toNat > 3600000000000 := by
            rw [hcsh] at hce'
            simp only [hourNs] at hce'
            clear * - hce'
            omega
          have hgap : (e - c).toNat = (e - s).toNat - 3600000000000 := by
            rw [hcsh]
            simp only [hourNs]
            clear * - h
            omega
          have hH : hourNs.toNat = 3600000000000 := rfl
          rw [hgap, hH]
          exact ceil_div_step ((e - s).toNat) hbig
        · rw [hourlyWindows_nil c e (by omega), List.length_nil]
          have hle : (e - s).toNat ≤ 3600000000000 := by
            have hsmall : e ≤ s + 3600000000000 := by
              rw [hc] at hce'
              split at hce' <;> simp only [hourNs] at * <;> omega
            clear * - hsmall
            omega
          have hpos : 1 ≤ (e - s).toNat := by
            clear * - h
            omega
          have hH : hourNs.toNat = 3600000000000 := rfl
          rw [hH, ceil_div_one ((e - s).toNat) hpos hle]
      · -- every instant of [s, e) lies in some sub-window
        intro t ht1 ht2
        by_cases htc : t < c
        · exact ⟨(s, c), by rw [hw]; exact List.mem_cons_self _ _, ht1, htc⟩
        · obtain ⟨w, hwmem, hw1, hw2⟩ := ihcover t (by omega) ht2
          exact ⟨w, by rw [hw]; exact List.mem_cons_of_mem _ hwmem, hw1, hw2⟩
      · -- when 1h does not divide the span, the last sub-window is short
        intro _ hndvd
        by_cases hce' : c < e
        · have hcsh : c = s + hourNs := by
            rw [hc]; split
            · omega
            · rfl
          have hndvd' : ¬ hourNs ∣ (e - c) := by
            intro hdvd
            apply hndvd
            have : e - s = (e - c) + hourNs := by omega
            rw [this]
            exact dvd_add hdvd dvd_rfl
          obtain ⟨w, hwl, hwshort⟩ := ihshort hce' hndvd'
          refine ⟨w, ?_, hwshort⟩
          rw [hw]
          cases htail : hourlyWindows c e with
          | nil => rw [htail] at hwl; cases hwl
          | cons w' tl => rw [List.getLast?_cons_cons, ← htail]; exact hwl
        · have hceq : c = e := by omega
          have hshort : e - s < hourNs := by
            rw [hc] at hceq
            split at hceq
            · omega
            · exfalso
              apply hndvd
              rw [show e - s = hourNs from by omega]
          refine ⟨(s, c), ?_, by simp only []; omega⟩
          rw [hw, hourlyWindows_nil c e (by omega)]
          rfl

/-- C3: for every valid window the Batch Scheduler produces exactly
ceil((end-start)/1h) sub-windows; the first starts at the global start;
each sub-window is [current, min(current + 1h, global_end)); each
subsequent sub-window starts where the previous ended; the last ends at
the global end; every instant of [start, end) is covered; distinct
sub-windows do not overlap; iteration stops when current >= global_end;
and the last sub-window is strictly shorter than 1h whenever the span is
not an exact multiple of 1h. -/
theorem C3_scheduler_subwindows (s e : Int) (h : s < e) :
    (hourlyWindows s e).length =
      ((e - s).toNat + hourNs.toNat - 1) / hourNs.toNat ∧
    (hourlyWindows s e).head? = some (s, min (s + hourNs) e) ∧
    (∀ w ∈ hourlyWindows s e,
      s ≤ w.1 ∧ w.1 < w.2 ∧ w.2 ≤ e ∧ w.2 = min (w.1 + hourNs) e) ∧
    List.Chain' (fun a b : Int × Int => a.2 = b.1) (hourlyWindows s e) ∧
    ((hourlyWindows s e).getLast?).map Prod.snd = some e ∧
    (∀ t, s ≤ t → t < e → ∃ w ∈ hourlyWindows s e, w.1 ≤ t ∧ t < w.2) ∧
    List.Pairwise (fun a b : Int × Int => a.2 ≤ b.1) (hourlyWindows s e) ∧
    (∀ u, e ≤ u → hourlyWindows u e = []) ∧
    (¬ hourNs ∣ (e - s) →
      ∃ w, (hourlyWindows s e).getLast? = some w ∧ w.2 - w.1 < hourNs) := by
  obtain ⟨hmem, hchain, hpair, hhead, hlast, hlen, hcover, hshort⟩ :=
    hourlyWindows_spec (e - s).toNat s e rfl
  exact ⟨hlen h, hhead h, hmem, hchain, hlast h, hcover, hpair,
    fun u hu => hourlyWindows_nil u e hu, hshort h⟩

/-- Witness for C3 on the 90-minute window [0, 5400000000000 ns). -/
theorem C3_scheduler_subwindows_witness :
    ((0 : Int) < 5400000000000) ∧
    ((hourlyWindows 0 5400000000000).length =
      (((5400000000000 : Int) - 0).toNat + hourNs.toNat - 1) / hourNs.toNat ∧
    (hourlyWindows 0 5400000000000).head? =
      some (0, min (0 + hourNs) 5400000000000) ∧
    (∀ w ∈ hourlyWindows 0 5400000000000,
      0 ≤ w.1 ∧ w.1 < w.2 ∧ w.2 ≤ 5400000000000 ∧
        w.2 = min (w.1 + hourNs) 5400000000000) ∧
    List.Chain' (fun a b : Int × Int => a.2 = b.1)
      (hourlyWindows 0 5400000000000) ∧
    ((hourlyWindows 0 5400000000000).getLast?).map Prod.snd =
      some 5400000000000 ∧
    (∀ t, 0 ≤ t → t < 5400000000000 →
      ∃ w ∈ hourlyWindows 0 5400000000000, w.1 ≤ t ∧ t < w.2) ∧
    List.Pairwise (fun a b : Int × Int => a.2 ≤ b.1)
      (hourlyWindows 0 5400000000000) ∧
    (∀ u, (5400000000000 : Int) ≤ u → hourlyWindows u 5400000000000 = []) ∧
    (¬ hourNs ∣ ((5400000000000 : Int) - 0) →
      ∃ w, (hourlyWindows 0 5400000000000).getLast? = some w ∧
        w.2 - w.1 < hourNs)) :=
  ⟨by decide, C3_scheduler_subwindows 0 5400000000000 (by decide)⟩

/-! ### Coordinator trace lemmas -/

theorem processClients_append (sinkW : SinkOracle) (metric : MetricConfig)
    (s e step : Int) (cs1 cs2 : List ClientModel) :
    processClients sinkW metric s e step (cs1 ++ cs2) =
      processClients sinkW metric s e step cs1 ++
        processClients sinkW metric s e step cs2 := by
  induction cs1 with
  | nil => simp [processClients]
  | cons c rest ih => simp [processClients, ih]

theorem processAllMetrics_append (sinkW : SinkOracle) (clients : List ClientModel)
    (s e step : Int) (ms1 ms2 : List MetricConfig) :
    processAllMetrics sinkW clients s e step (ms1 ++ ms2) =
      processAllMetrics sinkW clients s e step ms1 ++
        processAllMetrics sinkW clients s e step ms2 := by
  induction ms1 with
  | nil => simp [processAllMetrics]
  | cons m rest ih => simp [processAllMetrics, ih]

theorem mem_processClients (sinkW : SinkOracle) (metric : MetricConfig)
    (s e step : Int) (x : Event) (client : ClientModel) :
    ∀ cs : List ClientModel, client ∈ cs →
      x ∈ processPair sinkW client metric s e step →
      x ∈ processClients sinkW metric s e step cs := by
  intro cs
  induction cs with
  | nil => intro hc; cases hc
  | cons c rest ih =>
    intro hc hx
    rcases List.mem_cons.mp hc with rfl | hc'
    · exact List.mem_append_left _ hx
    · exact List.mem_append_right _ (ih hc' hx)

theorem mem_processAllMetrics (sinkW : SinkOracle) (clients : List ClientModel)
    (s e step : Int) (x : Event) (metric : MetricConfig) :
    ∀ ms : List MetricConfig, metric ∈ ms →
      x ∈ processClients sinkW metric s e step clients →
      x ∈ processAllMetrics sinkW clients s e step ms := by
  intro ms
  induction ms with
  | nil => intro hm; cases hm
  | cons m rest ih =>
    intro hm hx
    rcases List.mem_cons.mp hm with rfl | hm'
    · exact List.mem_append_left _ hx
    · exact List.mem_append_right _ (ih hm' hx)

/-- Every sink write the batch loop performs carries a non-empty record
batch. -/
theorem processWindows_write_nonempty (sinkW : SinkOracle) (client : ClientModel)
    (metric : MetricConfig) (step : Int) :
    ∀ (ws : List (Int × Int)) (b : Nat) (mn : String) (recs : List ProcessedData),
      Event.write mn recs ∈ (processWindows sinkW client metric step ws b).1 →
      recs ≠ [] := by
  intro ws
  induction ws with
  | nil => intro b mn recs h; simp [processWindows] at h
  | cons w rest ih =>
    intro b mn recs h
    obtain ⟨ws', we'⟩ := w
    cases hfetch : client.fetch metric.query ws' we' step with
    | error err =>
      simp only [processWindows, hfetch] at h
      simp at h
    | ok v =>
      cases hnorm : processBatchResult client.name metric.name metric.labelKeys v with
      | error err =>
        simp only [processWindows, hfetch, hnorm] at h
        simp at h
      | ok pd =>
        by_cases hlen : pd.length > 0
        · cases hsink : sinkW metric.name pd with
          | error err =>
            simp only [processWindows, hfetch, hnorm, if_pos hlen, hsink] at h
            rcases List.mem_cons.mp h with heq | h'
            · cases heq
            · rcases List.mem_singleton.mp h' with heq
              cases heq
              intro hnil
              rw [hnil] at hlen
              simp at hlen
          | ok u =>
            simp only [processWindows, hfetch, hnorm, if_pos hlen, hsink] at h
            rcases List.mem_cons.mp h with heq | h'
            · cases heq
            · rcases List.mem_cons.mp h' with heq | h''
              · cases heq
                intro hnil
                rw [hnil] at hlen
                simp at hlen
              · exact ih (b + 1) mn recs h''
        · simp only [processWindows, hfetch, hnorm, if_neg hlen] at h
          rcases List.mem_cons.mp h with heq | h'
          · cases heq
          · exact ih (b + 1) mn recs h'

/-- Every sink write in the full coordinator trace carries a non-empty
record batch. -/
theorem processAllMetrics_write_nonempty (sinkW : SinkOracle)
    (s e step : Int) (mn : String) (recs : List ProcessedData) :
    ∀ (ms : List MetricConfig) (clients : List ClientModel),
      Event.write mn recs ∈ processAllMetrics sinkW clients s e step ms →
      recs ≠ [] := by
  have hpair : ∀ (client : ClientModel) (metric : MetricConfig),
      Event.write mn recs ∈ processPair sinkW client metric s e step →
      recs ≠ [] := by
    intro client metric h
    rw [processPair, processInHourlyBatches_eq] at h
    rcases hb : processWindows sinkW client metric step (hourlyWindows s e) 1
      with ⟨evs, res⟩
    rw [hb] at h
    cases res with
    | ok u =>
      exact processWindows_write_nonempty sinkW client metric step _ 1 mn recs
        (by rw [hb]; exact h)
    | error msg =>
      have h' : Event.write mn recs ∈
          evs ++ [Event.logError metric.name client.name msg] := h
      rcases List.mem_append.mp h' with h'' | h''
      · exact processWindows_write_nonempty sinkW client metric step _ 1 mn recs
          (by rw [hb]; exact h'')
      · rcases List.mem_singleton.mp h'' with heq
        cases heq
  have hclients : ∀ (metric : MetricConfig) (cs : List ClientModel),
      Event.write mn recs ∈ processClients sinkW metric s e step cs →
      recs ≠ [] := by
    intro metric cs
    induction cs with
    | nil => intro h; simp [processClients] at h
    | cons c rest ih =>
      intro h
      rcases List.mem_append.mp h with h' | h'
      · exact hpair c metric h'
      · exact ih h'
  intro ms
  induction ms with
  | nil => intro clients h; simp [processAllMetrics] at h
  | cons m rest ih =>
    intro clients h
    rcases List.mem_append.mp h with h' | h'
    · exact hclients m clients h'
    · exact ih clients h'

/-! ### Concrete window computations -/

theorem hourlyWindows_one :
    hourlyWindows 0 3600000000000 = [(0, 3600000000000)] := by
  have h1 : hourlyWindows 0 3600000000000 =
      (0, 3600000000000) :: hourlyWindows 3600000000000 3600000000000 := by
    rw [hourlyWindows_unfold]
    norm_num [hourNs]
  rw [h1, hourlyWindows_nil 3600000000000 3600000000000 le_rfl]

theorem hourlyWindows_two :
    hourlyWindows 0 7200000000000 =
      [(0, 3600000000000), (3600000000000, 7200000000000)] := by
  have h1 : hourlyWindows 0 7200000000000 =
      (0, 3600000000000) :: hourlyWindows 3600000000000 7200000000000 := by
    rw [hourlyWindows_unfold]
    norm_num [hourNs]
  have h2 : hourlyWindows 3600000000000 7200000000000 =
      (3600000000000, 7200000000000) ::
        hourlyWindows 7200000000000 7200000000000 := by
    rw [hourlyWindows_unfold]
    norm_num [hourNs]
  rw [h1, h2, hourlyWindows_nil 7200000000000 7200000000000 le_rfl]

/-- The (metricCpu, clientGood) pair over the one-hour window produces
one fetch and one non-empty write. -/
theorem processPair_good_eval :
    processPair sinkOk clientGood metricCpu 0 3600000000000 300000000000 =
      [Event.fetchRange "promB" "q1" 0 3600000000000 300000000000,
        Event.write "m1" [recGood]] := by
  have hPIB : processInHourlyBatches sinkOk clientGood metricCpu 0
      3600000000000 300000000000 =
      ([Event.fetchRange "promB" "q1" 0 3600000000000 300000000000,
        Event.write "m1" [recGood]], Except.ok ()) := by
    rw [processInHourlyBatches_eq, hourlyWindows_one]
    rfl
  rw [processPair, hPIB]
  rfl

/-! ### C1: start equal to end (code behavior) -/

/-- C1 (code behavior at the failing input): with start = end = 0, a
parsable step and a configured metric and client, ProcessMetrics returns
nil and makes no FetchRange call at all -- the `start.After(end)` guard
does not fire on equal instants, so no "start must precede end" error is
returned. -/
theorem C1_start_equals_end_behavior :
    ProcessMetrics pdStep sinkOk [clientBoom] [metricCpu] 0 0 "5m" =
      ([], Except.ok ()) := by
  have h3 : processPair sinkOk clientBoom metricCpu 0 0 300000000000 = [] := by
    rw [processPair, processInHourlyBatches_eq, hourlyWindows_nil 0 0 (le_refl 0)]
    rfl
  have h1 : ProcessMetrics pdStep sinkOk [clientBoom] [metricCpu] 0 0 "5m" =
      (processAllMetrics sinkOk [clientBoom] 0 0 300000000000 [metricCpu],
        Except.ok ()) := rfl
  have h2 : processAllMetrics sinkOk [clientBoom] 0 0 300000000000 [metricCpu] =
      processPair sinkOk clientBoom metricCpu 0 0 300000000000 := by
    simp [processAllMetrics, processClients]
  rw [h1, h2, h3]

/-! ### C2: partial failure and the returned outcome -/

/-- C2 (amended): when a (metric, source) pair fails terminally, the run
still completes, the failed pair is skipped and logged with its metric
name, client name and cause, but ProcessMetrics returns nil (plain
success); the returned value does not identify the failed pairs. -/
theorem C2_partial_failure_logged (parseD : String → Except String Int)
    (sinkW : SinkOracle) (clients : List ClientModel)
    (metrics : List MetricConfig) (s e step : Int) (stepStr : String)
    (hstep : parseD stepStr = Except.ok step) (hse : ¬ e < s)
    (metric : MetricConfig) (client : ClientModel)
    (hm : metric ∈ metrics) (hc : client ∈ clients)
    (evs : List Event) (msg : String)
    (hfail : processInHourlyBatches sinkW client metric s e step =
      (evs, Except.error msg)) :
    (ProcessMetrics parseD sinkW clients metrics s e stepStr).2 =
      Except.ok () ∧
    Event.logError metric.name client.name msg ∈
      (ProcessMetrics parseD sinkW clients metrics s e stepStr).1 := by
  have hPM : ProcessMetrics parseD sinkW clients metrics s e stepStr =
      (processAllMetrics sinkW clients s e step metrics, Except.ok ()) := by
    unfold ProcessMetrics
    simp only [hstep]
    rw [if_neg hse]
  rw [hPM]
  refine ⟨rfl, ?_⟩
  apply mem_processAllMetrics sinkW clients s e step _ metric metrics hm
  apply mem_processClients sinkW metric s e step _ client clients hc
  rw [processPair, hfail]
  exact List.mem_append_right _ (List.mem_singleton.mpr rfl)

/-- Witness for the amended C2 at a concrete two-client run. -/
theorem C2_partial_failure_logged_witness :
    (pdStep "5m" = Except.ok 300000000000 ∧
      ¬ (3600000000000 : Int) < 0 ∧
      processInHourlyBatches sinkOk clientBoom metricCpu 0 3600000000000
          300000000000 =
        ([Event.fetchRange "promA" "q1" 0 3600000000000 300000000000],
          Except.error "failed to fetch batch 1: boom")) ∧
    (ProcessMetrics pdStep sinkOk [clientBoom, clientGood] [metricCpu] 0
        3600000000000 "5m").2 = Except.ok () ∧
    Event.logError "m1" "promA" "failed to fetch batch 1: boom" ∈
      (ProcessMetrics pdStep sinkOk [clientBoom, clientGood] [metricCpu] 0
        3600000000000 "5m").1 := by
  have hfail : processInHourlyBatches sinkOk clientBoom metricCpu 0
      3600000000000 300000000000 =
      ([Event.fetchRange "promA" "q1" 0 3600000000000 300000000000],
        Except.error "failed to fetch batch 1: boom") := by
    rw [processInHourlyBatches_eq, hourlyWindows_one]
    rfl
  refine ⟨⟨rfl, by decide, hfail⟩, ?_⟩
  exact C2_partial_failure_logged pdStep sinkOk [clientBoom, clientGood]
    [metricCpu] 0 3600000000000 300000000000 "5m" rfl (by decide)
    metricCpu clientBoom (List.mem_singleton.mpr rfl)
    (List.mem_cons_self _ _) _ _ hfail

/-- Counterexample to C2 as stated: in a run where the (m1, promA) pair
fails terminally while (m1, promB) succeeds and writes, ProcessMetrics
still returns plain success; the failure is only logged. -/
theorem C2_counterexample_plain_success :
    (ProcessMetrics pdStep sinkOk [clientBoom, clientGood] [metricCpu] 0
        3600000000000 "5m").2 = Except.ok () ∧
    Event.logError "m1" "promA" "failed to fetch batch 1: boom" ∈
      (ProcessMetrics pdStep sinkOk [clientBoom, clientGood] [metricCpu] 0
        3600000000000 "5m").1 ∧
    Event.write "m1" [recGood] ∈
      (ProcessMetrics pdStep sinkOk [clientBoom, clientGood] [metricCpu] 0
        3600000000000 "5m").1 := by
  have hB : processPair sinkOk clientBoom metricCpu 0 3600000000000
      300000000000 =
      [Event.fetchRange "promA" "q1" 0 3600000000000 300000000000,
        Event.logError "m1" "promA" "failed to fetch batch 1: boom"] := by
    have hPIB : processInHourlyBatches sinkOk clientBoom metricCpu 0
        3600000000000 300000000000 =
        ([Event.fetchRange "promA" "q1" 0 3600000000000 300000000000],
          Except.error "failed to fetch batch 1: boom") := by
      rw [processInHourlyBatches_eq, hourlyWindows_one]
      rfl
    rw [processPair, hPIB]
    rfl
  have h1 : ProcessMetrics pdStep sinkOk [clientBoom, clientGood] [metricCpu]
      0 3600000000000 "5m" =
      (processAllMetrics sinkOk [clientBoom, clientGood] 0 3600000000000
        300000000000 [metricCpu], Except.ok ()) := rfl
  have h2 : processAllMetrics sinkOk [clientBoom, clientGood] 0 3600000000000
      300000000000 [metricCpu] =
      processPair sinkOk clientBoom metricCpu 0 3600000000000 300000000000 ++
        processPair sinkOk clientGood metricCpu 0 3600000000000 300000000000 := by
    simp [processAllMetrics, processClients]
  rw [h1, h2, hB, processPair_good_eval]
  refine ⟨rfl, by simp, by simp⟩

/-! ### C10: no empty writes, no file for silent metrics -/

theorem lookupStr_mapInsert_ne {α : Type} (k k' : String) (v : α)
    (hne : k' ≠ k) :
    ∀ m : List (String × α), lookupStr (mapInsert m k' v) k = lookupStr m k := by
  intro m
  induction m with
  | nil => simp [mapInsert, lookupStr, hne]
  | cons hd tl ih =>
    obtain ⟨a, b⟩ := hd
    simp only [mapInsert]
    by_cases hak : a = k'
    · rw [if_pos hak]
      simp [lookupStr, hne, hak]
    · rw [if_neg hak]
      simp only [lookupStr]
      by_cases hk : a = k
      · rw [if_pos hk, if_pos hk]
      · rw [if_neg hk, if_neg hk, ih]

/-- A write for a different metric touches neither the writer nor the
rows of metric `mn`. -/
theorem csvWrite_other_metric (st : CSVState) (mn' : String)
    (recs : List ProcessedData) (mn : String) (hne : mn' ≠ mn) :
    lookupStr (csvWrite st mn' recs).writers mn = lookupStr st.writers mn ∧
    (csvWrite st mn' recs).rows.filter (fun r => r.1 == mn) =
      st.rows.filter (fun r => r.1 == mn) := by
  cases recs with
  | nil => exact ⟨rfl, rfl⟩
  | cons first rest =>
    have hrows : ∀ st1 : CSVState,
        (st1.rows ++ (first :: rest).map
          (fun d => (mn', createDataRow d))).filter (fun r => r.1 == mn) =
          st1.rows.filter (fun r => r.1 == mn) := by
      intro st1
      rw [List.filter_append]
      have : ((first :: rest).map (fun d => (mn', createDataRow d))).filter
          (fun r => r.1 == mn) = [] := by
        rw [List.filter_eq_nil_iff]
        intro a ha
        obtain ⟨d, _, rfl⟩ := List.mem_map.mp ha
        simp [hne]
      rw [this, List.append_nil]
    cases hlk : lookupStr st.writers mn' with
    | some header =>
      constructor
      · simp only [csvWrite, hlk]
      · simp only [csvWrite, hlk]
        exact hrows st
    | none =>
      constructor
      · simp only [csvWrite, hlk]
        exact lookupStr_mapInsert_ne mn mn' (createHeaderRow first) hne st.writers
      · simp only [csvWrite, hlk]
        exact hrows st

/-- Replaying a trace with no write for metric `mn` leaves metric `mn`'s
writer and rows untouched. -/
theorem runSink_untouched (mn : String) :
    ∀ (evs : List Event) (st : CSVState),
      (∀ recs, Event.write mn recs ∉ evs) →
      lookupStr (runSink st evs).writers mn = lookupStr st.writers mn ∧
      (runSink st evs).rows.filter (fun r => r.1 == mn) =
        st.rows.filter (fun r => r.1 == mn) := by
  intro evs
  induction evs with
  | nil => intro st _; exact ⟨rfl, rfl⟩
  | cons ev rest ih =>
    intro st h
    have hrest : ∀ recs, Event.write mn recs ∉ rest :=
      fun r hr => h r (List.mem_cons_of_mem _ hr)
    cases ev with
    | write mn' recs =>
      have hne : mn' ≠ mn := by
        rintro rfl
        exact h recs (List.mem_cons_self _ _)
      obtain ⟨h1, h2⟩ := ih (csvWrite st mn' recs) hrest
      obtain ⟨g1, g2⟩ := csvWrite_other_metric st mn' recs mn hne
      simp only [runSink]
      exact ⟨h1.trans g1, h2.trans g2⟩
    | fetchRange c q a b st' =>
      simp only [runSink]
      exact ih st hrest
    | logError m c msg =>
      simp only [runSink]
      exact ih st hrest

/-- C10: the coordinator calls Sink.Write only with a non-empty record
sequence; an empty CSV write is a no-op that creates nothing; and a
metric that never appears in a write event ends the run with no writer
(no output file) and no rows. -/
theorem C10_no_empty_writes (parseD : String → Except String Int)
    (sinkW : SinkOracle) (clients : List ClientModel)
    (metrics : List MetricConfig) (s e : Int) (stepStr : String)
    (mn : String) (recs : List ProcessedData) (st : CSVState)
    (evs : List Event) :
    (Event.write mn recs ∈
        (ProcessMetrics parseD sinkW clients metrics s e stepStr).1 →
      recs ≠ []) ∧
    csvWrite st mn [] = st ∧
    ((∀ recs', Event.write mn recs' ∉ evs) →
      lookupStr (runSink st evs).writers mn = lookupStr st.writers mn ∧
      (runSink st evs).rows.filter (fun r => r.1 == mn) =
        st.rows.filter (fun r => r.1 == mn)) := by
  refine ⟨?_, rfl, runSink_untouched mn evs st⟩
  intro h
  unfold ProcessMetrics at h
  cases hp : parseD stepStr with
  | error msg => rw [hp] at h; simp at h
  | ok step =>
    simp only [hp] at h
    by_cases hse : e < s
    · rw [if_pos hse] at h
      simp at h
    · rw [if_neg hse] at h
      exact processAllMetrics_write_nonempty sinkW s e step mn recs metrics
        clients h

/-- Witness for C10 on a concrete run: the one write carries a non-empty
batch, an empty write leaves the fresh sink untouched, and the metric
"m2", never written, gets no writer and no rows. -/
theorem C10_no_empty_writes_witness :
    (Event.write "m1" [recGood] ∈
      (ProcessMetrics pdStep sinkOk [clientGood] [metricCpu] 0 3600000000000
        "5m").1) ∧
    [recGood] ≠ [] ∧
    csvWrite csvInit "m1" [] = csvInit ∧
    (∀ recs', Event.write "m2" recs' ∉
      (ProcessMetrics pdStep sinkOk [clientGood] [metricCpu] 0 3600000000000
        "5m").1) ∧
    lookupStr (runSink csvInit
      (ProcessMetrics pdStep sinkOk [clientGood] [metricCpu] 0 3600000000000
        "5m").1).writers "m2" = none := by
  have htr : (ProcessMetrics pdStep sinkOk [clientGood] [metricCpu] 0
      3600000000000 "5m").1 =
      [Event.fetchRange "promB" "q1" 0 3600000000000 300000000000,
        Event.write "m1" [recGood]] := by
    have h1 : ProcessMetrics pdStep sinkOk [clientGood] [metricCpu] 0
        3600000000000 "5m" =
        (processAllMetrics sinkOk [clientGood] 0 3600000000000 300000000000
          [metricCpu], Except.ok ()) := rfl
    have h2 : processAllMetrics sinkOk [clientGood] 0 3600000000000
        300000000000 [metricCpu] =
        processPair sinkOk clientGood metricCpu 0 3600000000000
          300000000000 := by
      simp [processAllMetrics, processClients]
    rw [h1, h2, processPair_good_eval]
  have hmem : Event.write "m1" [recGood] ∈
      (ProcessMetrics pdStep sinkOk [clientGood] [metricCpu] 0 3600000000000
        "5m").1 := by
    rw [htr]; simp
  have hno : ∀ recs', Event.write "m2" recs' ∉
      (ProcessMetrics pdStep sinkOk [clientGood] [metricCpu] 0 3600000000000
        "5m").1 := by
    intro recs' hmem'
    rw [htr] at hmem'
    rcases List.mem_cons.mp hmem' with heq | hmem''
    · cases heq
    · rcases List.mem_singleton.mp hmem'' with heq
      simp at heq
  have h := C10_no_empty_writes pdStep sinkOk [clientGood] [metricCpu] 0
    3600000000000 "5m" "m2" [recGood] csvInit
    (ProcessMetrics pdStep sinkOk [clientGood] [metricCpu] 0 3600000000000
      "5m").1
  have hA := C10_no_empty_writes pdStep sinkOk [clientGood] [metricCpu] 0
    3600000000000 "5m" "m1" [recGood] csvInit
    (ProcessMetrics pdStep sinkOk [clientGood] [metricCpu] 0 3600000000000
      "5m").1
  refine ⟨hmem, hA.1 hmem, h.2.1, hno, ?_⟩
  exact ((h.2.2) hno).1.trans rfl

/-! ### C6: abort on sub-window failure, isolation of sibling pairs -/

/-- When the fetches of the first `pre.length` sub-windows succeed (and
normalize and write cleanly) and the next sub-window's fetch fails
terminally, the batch loop returns the fetch error for that batch, its
trace fetches exactly the windows up to and including the failing one,
ends at the failing fetch, and contains writes only for the successful
prefix. -/
theorem processWindows_error_at (sinkW : SinkOracle) (client : ClientModel)
    (metric : MetricConfig) (step : Int) (e0 : String) :
    ∀ (pre : List (Int × Int)) (wk : Int × Int) (post : List (Int × Int))
      (b : Nat),
      (∀ w ∈ pre, ∃ v recs,
        client.fetch metric.query w.1 w.2 step = Except.ok v ∧
        processBatchResult client.name metric.name metric.labelKeys v =
          Except.ok recs ∧
        (recs.length > 0 → sinkW metric.name recs = Except.ok ())) →
      client.fetch metric.query wk.1 wk.2 step = Except.error e0 →
      ∃ evs,
        processWindows sinkW client metric step (pre ++ wk :: post) b =
          (evs, Except.error
            ("failed to fetch batch " ++ toString (b + pre.length) ++ ": " ++
              e0)) ∧
        evs.filter isFetch = (pre ++ [wk]).map
          (fun w => Event.fetchRange client.name metric.query w.1 w.2 step) ∧
        evs.getLast? =
          some (Event.fetchRange client.name metric.query wk.1 wk.2 step) ∧
        (∀ mn recs, Event.write mn recs ∈ evs →
          ∃ w ∈ pre, ∃ v,
            client.fetch metric.query w.1 w.2 step = Except.ok v ∧
            processBatchResult client.name metric.name metric.labelKeys v =
              Except.ok recs) := by
  intro pre
  induction pre with
  | nil =>
    intro wk post b hgood hbad
    obtain ⟨wks, wke⟩ := wk
    refine ⟨[Event.fetchRange client.name metric.query wks wke step],
      ?_, by simp [isFetch], rfl, ?_⟩
    · simp only [List.nil_append, processWindows, hbad, List.length_nil,
        Nat.add_zero]
    · intro mn recs h
      rcases List.mem_singleton.mp h with heq
      cases heq
  | cons w pre' ih =>
    intro wk post b hgood hbad
    obtain ⟨v, recs, hf, hn, hs⟩ := hgood w (List.mem_cons_self _ _)
    have hgood' : ∀ w' ∈ pre', ∃ v' recs',
        client.fetch metric.query w'.1 w'.2 step = Except.ok v' ∧
        processBatchResult client.name metric.name metric.labelKeys v' =
          Except.ok recs' ∧
        (recs'.length > 0 → sinkW metric.name recs' = Except.ok ()) :=
      fun w' hw' => hgood w' (List.mem_cons_of_mem _ hw')
    obtain ⟨evs', heq', hfil', hlast', hwr'⟩ := ih wk post (b + 1) hgood' hbad
    obtain ⟨ws', we'⟩ := w
    have hlast2 : ∀ x : Event, (x :: evs').getLast? =
        some (Event.fetchRange client.name metric.query wk.1 wk.2 step) := by
      intro x
      cases hevs : evs' with
      | nil => rw [hevs] at hlast'; simp at hlast'
      | cons y ys =>
        rw [hevs] at hlast'
        rw [List.getLast?_cons_cons]
        exact hlast'
    by_cases hl : recs.length > 0
    · have hsw := hs hl
      refine ⟨Event.fetchRange client.name metric.query ws' we' step ::
          Event.write metric.name recs :: evs', ?_, ?_, ?_, ?_⟩
      · simp only [List.cons_append, processWindows, List.append_eq, hf, hn,
          if_pos hl, hsw, heq', List.length_cons]
        rw [show b + (pre'.length + 1) = b + 1 + pre'.length from by omega]
      · simp only [List.filter_cons, isFetch, List.cons_append, List.map_cons,
          hfil']
        rfl
      · cases hevs : evs' with
        | nil => rw [hevs] at hlast'; simp at hlast'
        | cons y ys =>
          rw [hevs] at hlast'
          rw [List.getLast?_cons_cons, List.getLast?_cons_cons]
          exact hlast'
      · intro mn recs'' h
        rcases List.mem_cons.mp h with heq | h'
        · cases heq
        · rcases List.mem_cons.mp h' with heq | h''
          · cases heq
            exact ⟨(ws', we'), List.mem_cons_self _ _, v, hf, hn⟩
          · obtain ⟨w', hw', v', hf', hn'⟩ := hwr' mn recs'' h''
            exact ⟨w', List.mem_cons_of_mem _ hw', v', hf', hn'⟩
    · refine ⟨Event.fetchRange client.name metric.query ws' we' step :: evs',
        ?_, ?_, hlast2 _, ?_⟩
      · simp only [List.cons_append, processWindows, List.append_eq, hf, hn,
          if_neg hl, heq', List.length_cons]
        rw [show b + (pre'.length + 1) = b + 1 + pre'.length from by omega]
      · simp only [List.filter_cons, isFetch, List.cons_append, List.map_cons,
          hfil']
        rfl
      · intro mn recs'' h
        rcases List.mem_cons.mp h with heq | h''
        · cases heq
        · obtain ⟨w', hw', v', hf', hn'⟩ := hwr' mn recs'' h''
          exact ⟨w', List.mem_cons_of_mem _ hw', v', hf', hn'⟩

/-- C6: a terminal fetch failure at one sub-window aborts the entire
remaining window for that (metric, source) pair -- no later sub-window is
fetched or written, the trace ends at the failing fetch -- the error is
surfaced to the coordinator as the pair's log entry, and sibling pairs'
processing is exactly what it would be on its own (the failure never
removes or alters another pair's events). -/
theorem C6_abort_and_isolation (sinkW : SinkOracle) (client : ClientModel)
    (metric : MetricConfig) (s e step : Int)
    (pre post : List (Int × Int)) (wk : Int × Int) (e0 : String)
    (hsplit : hourlyWindows s e = pre ++ wk :: post)
    (hgood : ∀ w ∈ pre, ∃ v recs,
      client.fetch metric.query w.1 w.2 step = Except.ok v ∧
      processBatchResult client.name metric.name metric.labelKeys v =
        Except.ok recs ∧
      (recs.length > 0 → sinkW metric.name recs = Except.ok ()))
    (hbad : client.fetch metric.query wk.1 wk.2 step = Except.error e0) :
    (∃ evs,
      processInHourlyBatches sinkW client metric s e step =
        (evs, Except.error
          ("failed to fetch batch " ++ toString (1 + pre.length) ++ ": " ++
            e0)) ∧
      evs.filter isFetch = (pre ++ [wk]).map
        (fun w => Event.fetchRange client.name metric.query w.1 w.2 step) ∧
      evs.getLast? =
        some (Event.fetchRange client.name metric.query wk.1 wk.2 step) ∧
      (∀ mn recs, Event.write mn recs ∈ evs →
        ∃ w ∈ pre, ∃ v,
          client.fetch metric.query w.1 w.2 step = Except.ok v ∧
          processBatchResult client.name metric.name metric.labelKeys v =
            Except.ok recs)) ∧
    Event.logError metric.name client.name
        ("failed to fetch batch " ++ toString (1 + pre.length) ++ ": " ++ e0) ∈
      processPair sinkW client metric s e step ∧
    (∀ cs1 cs2 : List ClientModel,
      processClients sinkW metric s e step (cs1 ++ client :: cs2) =
        processClients sinkW metric s e step cs1 ++
          (processPair sinkW client metric s e step ++
            processClients sinkW metric s e step cs2)) ∧
    (∀ (ms1 ms2 : List MetricConfig) (clients : List ClientModel),
      processAllMetrics sinkW clients s e step (ms1 ++ metric :: ms2) =
        processAllMetrics sinkW clients s e step ms1 ++
          (processClients sinkW metric s e step clients ++
            processAllMetrics sinkW clients s e step ms2)) := by
  obtain ⟨evs, heq, hfil, hlast, hwr⟩ :=
    processWindows_error_at sinkW client metric step e0 pre wk post 1 hgood hbad
  have heqP : processInHourlyBatches sinkW client metric s e step =
      (evs, Except.error
        ("failed to fetch batch " ++ toString (1 + pre.length) ++ ": " ++
          e0)) := by
    rw [processInHourlyBatches_eq, hsplit]
    exact heq
  refine ⟨⟨evs, heqP, hfil, hlast, hwr⟩, ?_, ?_, ?_⟩
  · rw [processPair, heqP]
    exact List.mem_append_right _ (List.mem_singleton.mpr rfl)
  · intro cs1 cs2
    rw [processClients_append]
    rfl
  · intro ms1 ms2 clients
    rw [processAllMetrics_append]
    rfl

/-- Witness for C6: a client that succeeds on the first hourly sub-window
of [0, 2h) and fails on the second aborts with the batch-2 error and its
failure is logged for the pair. -/
theorem C6_abort_and_isolation_witness :
    (hourlyWindows 0 7200000000000 =
      [(0, 3600000000000)] ++ (3600000000000, 7200000000000) :: [] ∧
    clientSecondBatchBoom.fetch metricCpu.query 3600000000000 7200000000000
        300000000000 = Except.error "boom") ∧
    (processInHourlyBatches sinkOk clientSecondBatchBoom metricCpu 0
        7200000000000 300000000000).2 =
      Except.error "failed to fetch batch 2: boom" ∧
    Event.logError "m1" "promC" "failed to fetch batch 2: boom" ∈
      processPair sinkOk clientSecondBatchBoom metricCpu 0 7200000000000
        300000000000 := by
  have hsplit : hourlyWindows 0 7200000000000 =
      [(0, 3600000000000)] ++ (3600000000000, 7200000000000) :: [] := by
    rw [hourlyWindows_two]
    rfl
  have hbad : clientSecondBatchBoom.fetch metricCpu.query 3600000000000
      7200000000000 300000000000 = Except.error "boom" := rfl
  obtain ⟨⟨evs, heqP, _, _, _⟩, hlog, _, _⟩ :=
    C6_abort_and_isolation sinkOk clientSecondBatchBoom metricCpu 0
      7200000000000 300000000000 [(0, 3600000000000)] []
      (3600000000000, 7200000000000) "boom" hsplit
      (by
        intro w hw
        rcases List.mem_singleton.mp hw with rfl
        exact ⟨vecC6, [recC6], rfl, rfl, fun _ => rfl⟩)
      hbad
  refine ⟨⟨hsplit, hbad⟩, ?_, hlog⟩
  rw [heqP]
  rfl

/-! ### C9: header-row label column order (code behavior) -/

/-- C9 (code behavior at the failing input): when Go map iteration yields
the first record's label keys in the order job, instance, the header's
label columns follow that order -- not lexicographic order -- while the
data rows emit label values in sorted-key order, so the columns
misalign. -/
theorem C9_header_not_lexicographic :
    createHeaderRow
        { prometheusInstance := "p", metricName := "m", timestamp := 0,
          value := 0, labels := [("job", "b"), ("instance", "a")] } =
      ["prometheus_instance", "metric_name", "timestamp", "value",
        "label_job", "label_instance"] ∧
    getSortedLabelKeys [("job", "b"), ("instance", "a")] =
      ["instance", "job"] ∧
    createDataRow
        { prometheusInstance := "p", metricName := "m", timestamp := 0,
          value := 0, labels := [("job", "b"), ("instance", "a")] } =
      ["p", "m", "0", "0", "a", "b"] ∧
    createHeaderRow
        { prometheusInstance := "p", metricName := "m", timestamp := 0,
          value := 0, labels := [("job", "b"), ("instance", "a")] } ≠
      ["prometheus_instance", "metric_name", "timestamp", "value",
        "label_instance", "label_job"] := by
  have hjb : ¬ ("job" : String) ≤ "instance" := by
    simp [String.le_iff_toList_le]
    decide
  have hsort : getSortedLabelKeys [("job", "b"), ("instance", "a")] =
      ["instance", "job"] := by
    simp [getSortedLabelKeys, sortStrings, insertAsc, hjb]
  refine ⟨rfl, hsort, ?_, by decide⟩
  simp only [createDataRow, hsort]
  decide

end Crawler
